import Mathlib

/-!
Verification development for the ses-emailer repository.

The definitions below are a shallow embedding of the batch-send
orchestrators (src/old_tui/screens/send.py, src/api/routers/email.py)
and the persistent-store layer (src/sending/db.py).  Database tables are
modelled as Lean lists of row structures in rowid (insertion) order,
SQL UPDATE/DELETE/INSERT statements as the corresponding list
transformations, and the Python send loops as explicit state-passing
functions.
-/

namespace SesEmailer

/-! ### Batch chunking

The slices `recipients[i : i + b]` for `i in range(0, len(recipients), b)`
used by both send loops. -/

def chunksOf (b : Nat) (l : List α) : List (List α) :=
  if h : b = 0 ∨ l.length = 0 then []
  else l.take b :: chunksOf b (l.drop b)
termination_by l.length
decreasing_by
  push_neg at h
  have hne : l.length ≠ 0 := h.2
  simp only [List.length_drop]
  omega

/-- `total_batches = (len(recipients) + batch_size - 1) // batch_size`. -/
def totalBatches (n b : Nat) : Nat := (n + b - 1) / b

/-! ### Persistent store model (src/sending/db.py)

Tables are lists of rows in rowid (insertion) order. -/

/-- A row of the `emails` table (a Template). -/
structure EmailRow where
  id : String
  subject : String
  body : String
  sender : String
  files : String
deriving DecidableEq, Repr

/-- A row of the `sent_emails` table (a SentRecord). -/
structure SentRow where
  rowid : Nat
  email_id : String
  sent_to : String
  sent_type : String
  sent_at : String
deriving DecidableEq, Repr

/-- A row of the `failed_emails` table (a FailedRecord). -/
structure FailedRow where
  rowid : Nat
  email_id : String
  recipient : String
  error_reason : String
  failed_at : String
  retried : Bool
deriving DecidableEq, Repr

structure DBState where
  emails : List EmailRow
  sent : List SentRow
  failed : List FailedRow
deriving DecidableEq, Repr

/-- `Database.__init__` (src/sending/db.py): `self.path = "emails.db"`;
the `file_name` parameter is never read. -/
def Database.initPath (file_name : String) : String := "emails.db"

/-- `add_email`: INSERT INTO emails; the primary-key constraint makes the
insert a no-op (the callers swallow the exception) when the id exists. -/
def DBState.add_email (st : DBState) (e : EmailRow) : DBState :=
  if st.emails.any (fun e2 => e2.id == e.id) then st
  else { st with emails := st.emails ++ [e] }

/-- `add_sent`: INSERT INTO sent_emails (email_id, sent_to, sent_type, sent_at). -/
def DBState.add_sent (st : DBState) (email_id sent_to sent_type sent_at : String) :
    DBState :=
  { st with sent := st.sent ++ [⟨st.sent.length, email_id, sent_to, sent_type, sent_at⟩] }

/-- `add_failed_email`: INSERT INTO failed_emails (email_id, recipient,
error_reason, failed_at); `retried` defaults to 0. -/
def DBState.add_failed_email (st : DBState)
    (email_id recipient error_reason failed_at : String) : DBState :=
  { st with
    failed := st.failed ++ [⟨st.failed.length, email_id, recipient, error_reason,
      failed_at, false⟩] }

/-- `get_sent_recipients_by_email_id`: SELECT DISTINCT sent_to WHERE email_id = ?. -/
def get_sent_recipients_by_email_id (st : DBState) (email_id : String) : Finset String :=
  ((st.sent.filter (fun r => r.email_id == email_id)).map (fun r => r.sent_to)).toFinset

/-- `get_all_sent_recipients`: SELECT DISTINCT sent_to FROM sent_emails. -/
def get_all_sent_recipients (st : DBState) : Finset String :=
  (st.sent.map (fun r => r.sent_to)).toFinset

/-! ### Recipient comparator (`compare_recipients`, src/sending/db.py)

Python's `str.lower()` and `str.strip()` are modelled directly on the
character list (ASCII case folding, whitespace stripping at both ends). -/

/-- `str.lower()` on one character (ASCII). -/
def pyLowerChar (c : Char) : Char :=
  if 'A' ≤ c ∧ c ≤ 'Z' then Char.ofNat (c.toNat + 32) else c

/-- Python `s.lower()`. -/
def pyLower (s : String) : String := ⟨s.data.map pyLowerChar⟩

/-- Python whitespace test used by `str.strip()`. -/
def isSpaceChar (c : Char) : Bool :=
  c = ' ' ∨ c = '\t' ∨ c = '\n' ∨ c = '\r'

/-- Python `s.strip()`: drop whitespace from both ends. -/
def pyStrip (s : String) : String :=
  ⟨((s.data.dropWhile isSpaceChar).reverse.dropWhile isSpaceChar).reverse⟩

/-- `{r.strip().lower() for r in current_recipients if r.strip()}`. -/
def normalizedCandidates (current_recipients : List String) : Finset String :=
  ((current_recipients.filter (fun r => pyStrip r != "")).map
    (fun r => pyLower (pyStrip r))).toFinset

/-- The `sent_set` chosen by `compare_recipients`: a non-empty `email_ids`
takes precedence, then a non-empty `email_id`, else all history.  Historical
addresses are passed through `r.lower()` only (no strip). -/
def compareSentSet (st : DBState) (email_id : Option String)
    (email_ids : Option (List String)) : Finset String :=
  match email_ids with
  | some (eid0 :: rest) =>
      (eid0 :: rest).foldl
        (fun acc eid => acc ∪ (get_sent_recipients_by_email_id st eid).image
          pyLower) ∅
  | _ =>
      match email_id with
      | some eid =>
          if eid = "" then (get_all_sent_recipients st).image pyLower
          else (get_sent_recipients_by_email_id st eid).image pyLower
      | none => (get_all_sent_recipients st).image pyLower

structure CompareResult where
  total : Nat
  already_sent : Nat
  new_recipients : Nat
  already_sent_list : Finset String
  new_recipients_list : Finset String
deriving DecidableEq

/-- `compare_recipients` (src/sending/db.py lines 181-230).  The Python sets
become `Finset`s; the returned lists are in arbitrary order, so they are kept
as the underlying sets. -/
def compare_recipients (st : DBState) (current_recipients : List String)
    (email_id : Option String) (email_ids : Option (List String)) : CompareResult :=
  let current_set := normalizedCandidates current_recipients
  let sent_set := compareSentSet st email_id email_ids
  let a := current_set ∩ sent_set
  let n := current_set \ sent_set
  { total := current_set.card
    already_sent := a.card
    new_recipients := n.card
    already_sent_list := a
    new_recipients_list := n }

/-- What full normalization (trim + lowercase, as the spec describes) of the
whole send history would give. -/
def specTrimmedHistorical (st : DBState) : Finset String :=
  (st.sent.map (fun r => pyLower (pyStrip r.sent_to))).toFinset

/-- A history whose recorded recipient carries leading whitespace. -/
def dbWhitespaceHistory : DBState :=
  { emails := [⟨"e1", "Hi", "Hello", "a@b.com", ""⟩]
    sent := [⟨0, "e1", " x@a.com", "bcc", "t1"⟩]
    failed := [] }

/-! ### History / dedup engine (src/sending/db.py) -/

/-- The grouping key `(subject, sender, body)`. -/
def groupKey (e : EmailRow) : String × String × String := (e.subject, e.sender, e.body)

/-- `ORDER BY subject, sender`.  Ties are left in rowid order: SQLite scans
the table in rowid order and the sort is modelled as stable. -/
def bySubjectSender (a b : EmailRow) : Bool :=
  decide (a.subject < b.subject ∨ (a.subject = b.subject ∧ a.sender ≤ b.sender))

/-- An entry of the `groups` dict of `get_grouped_emails_summary`. -/
structure GroupAcc where
  key : String × String × String
  files : String
  email_ids : List String
deriving DecidableEq

/-- One step of the `for email in emails:` grouping loop (the Python dict
preserves insertion order; `files` is taken from the group's first email). -/
def insertEmail (gs : List GroupAcc) (e : EmailRow) : List GroupAcc :=
  if gs.any (fun g => g.key == groupKey e) then
    gs.map (fun g =>
      if g.key == groupKey e then { g with email_ids := g.email_ids ++ [e.id] } else g)
  else gs ++ [⟨groupKey e, e.files, [e.id]⟩]

/-- SQL `MAX` over timestamp strings (`NULL` on an empty set). -/
def maxString (l : List String) : Option String :=
  l.foldl (fun acc s =>
    match acc with
    | none => some s
    | some t => some (if t < s then s else t)) none

structure GroupSummary where
  id : String
  email_ids : List String
  subject : String
  sender : String
  body : String
  files : String
  sent_count : Nat
  failed_count : Nat
  last_sent : Option String
  template_count : Nat
deriving DecidableEq

/-- The result dict built for one group: `primary_id = email_ids[0]`,
`COUNT(DISTINCT sent_to)`, `MAX(sent_at)`, `COUNT(*)` of failed rows. -/
def summaryOfGroup (st : DBState) (g : GroupAcc) : GroupSummary :=
  let ids := g.email_ids
  let sentRows := st.sent.filter (fun r => ids.contains r.email_id)
  let failedRows := st.failed.filter (fun r => ids.contains r.email_id)
  { id := ids.headI
    email_ids := ids
    subject := g.key.1
    sender := g.key.2.1
    body := g.key.2.2
    files := g.files
    sent_count := ((sentRows.map (fun r => r.sent_to)).dedup).length
    failed_count := failedRows.length
    last_sent := maxString (sentRows.map (fun r => r.sent_at))
    template_count := ids.length }

/-- `get_grouped_emails_summary` (src/sending/db.py lines 263-351); the final
`results.sort(key=..., reverse=True)` is a stable descending sort on
`last_sent or ""`. -/
def get_grouped_emails_summary (st : DBState) : List GroupSummary :=
  let sortedEmails := st.emails.mergeSort bySubjectSender
  let gs := sortedEmails.foldl insertEmail []
  let results := gs.map (summaryOfGroup st)
  results.mergeSort (fun a b => decide ((b.last_sent.getD "") ≤ (a.last_sent.getD "")))

/-! ### Consolidation (`migrate_consolidate_duplicate_emails`) -/

/-- The ids (rowid order) of the emails whose key is `k`. -/
def groupIds (emails : List EmailRow) (k : String × String × String) : List String :=
  (emails.filter (fun e => groupKey e == k)).map (fun e => e.id)

/-- `GROUP BY subject, sender, body HAVING cnt > 1`, `GROUP_CONCAT(id)`
collecting ids in rowid order. -/
def dupGroups (st : DBState) : List (List String) :=
  ((st.emails.map groupKey).dedup).filterMap (fun k =>
    let ids := groupIds st.emails k
    if 1 < ids.length then some ids else none)

structure MigStats where
  groups_found : Nat
  templates_removed : Nat
  sent_emails_updated : Nat
  failed_emails_updated : Nat
deriving DecidableEq, Repr

/-- The `for dup_id in duplicate_ids:` body: two UPDATEs rewriting
`email_id` from `dup` to `canonical` and a DELETE of the duplicate email
row, accumulating the affected row counts. -/
def processDup (canonical : String) (acc : DBState × MigStats) (dup : String) :
    DBState × MigStats :=
  let st := acc.1
  let s := acc.2
  let su := (st.sent.filter (fun r => r.email_id == dup)).length
  let fu := (st.failed.filter (fun r => r.email_id == dup)).length
  let tr := (st.emails.filter (fun e => e.id == dup)).length
  ({ emails := st.emails.filter (fun e => !(e.id == dup))
     sent := st.sent.map (fun r =>
       if r.email_id == dup then { r with email_id := canonical } else r)
     failed := st.failed.map (fun r =>
       if r.email_id == dup then { r with email_id := canonical } else r) },
   { s with
     sent_emails_updated := s.sent_emails_updated + su
     failed_emails_updated := s.failed_emails_updated + fu
     templates_removed := s.templates_removed + tr })

/-- The `for group in duplicate_groups:` body: the canonical id is
`email_ids[0]`, the rest are duplicates. -/
def processGroup (acc : DBState × MigStats) (ids : List String) : DBState × MigStats :=
  ids.tail.foldl (processDup ids.headI) acc

/-- `migrate_consolidate_duplicate_emails` (src/sending/db.py lines 375-437). -/
def migrate_consolidate_duplicate_emails (st : DBState) : DBState × MigStats :=
  let gs := dupGroups st
  gs.foldl processGroup (st, ⟨gs.length, 0, 0, 0⟩)

/-! ### Batch send orchestrators

The provider call either returns a message id, raises a structured
`ClientError`, or raises some other exception. -/

inductive ChunkOutcome
  | success (message_id : String)
  | clientError (msg : String)
  | otherError (msg : String)
deriving DecidableEq, Repr

/-- The `Destination` dict built by both send paths:
`(BccAddresses, ToAddresses)`. -/
def sesDestination (use_bcc : Bool) (to_address : String) (batch : List String) :
    List String × List String :=
  (if use_bcc then batch else [], if use_bcc then [to_address] else batch)

/-- The mutable fields of `SendScreen` that the worker reads and writes
(src/old_tui/screens/send.py).  `failed_emails` keeps `(email, error)` pairs
(the wall-clock timestamp is not modelled); `processedLog` is ghost state
recording the 0-based indices of the chunks actually processed. -/
structure TuiState where
  is_paused : Bool
  total_sent : Nat
  total_failed : Nat
  failed_emails : List (String × String)
  current_batch_index : Nat
  current_email_id : Option String
  db : DBState
  processedLog : List Nat
deriving DecidableEq

/-- Lazy template creation shared by `_save_to_database` and
`_save_failed_to_database`: reuse `current_email_id`, or record the freshly
generated Email (uuid id) and insert it. -/
def tuiEnsureEmailId (newEmail : EmailRow) (s : TuiState) : String × TuiState :=
  match s.current_email_id with
  | some eid => (eid, s)
  | none =>
      (newEmail.id,
       { s with current_email_id := some newEmail.id, db := s.db.add_email newEmail })

/-- One iteration body of `_send_emails_worker` after the pause/cancel checks
(src/old_tui/screens/send.py lines 532-624): send the chunk and record the
outcome.  Provider (`ClientError`) and generic exceptions are handled by two
textually identical blocks. -/
def tuiProcessChunk (newEmail : EmailRow) (now : String) (outcome : ChunkOutcome)
    (batch : List String) (s : TuiState) : TuiState :=
  match outcome with
  | .success _ =>
      let s1 := { s with total_sent := s.total_sent + batch.length }
      let p := tuiEnsureEmailId newEmail s1
      { p.2 with db := batch.foldl (fun db r => db.add_sent p.1 r "bcc" now) p.2.db }
  | .clientError msg =>
      let s1 := { s with
        total_failed := s.total_failed + batch.length
        failed_emails := s.failed_emails ++ batch.map (fun r => (r, msg)) }
      let p := tuiEnsureEmailId newEmail s1
      { p.2 with
        db := batch.foldl (fun db r => db.add_failed_email p.1 r msg now) p.2.db }
  | .otherError msg =>
      let s1 := { s with
        total_failed := s.total_failed + batch.length
        failed_emails := s.failed_emails ++ batch.map (fun r => (r, msg)) }
      let p := tuiEnsureEmailId newEmail s1
      { p.2 with
        db := batch.foldl (fun db r => db.add_failed_email p.1 r msg now) p.2.db }

/-- The `for batch_num, i in enumerate(range(start_index, ...))` loop of
`_send_emails_worker`.  `pauseAt = some k` models a pause request observed at
the boundary of 0-based chunk `k` (the code then saves
`current_batch_index = batch_num - 1 = k` and returns); `newEmail i`,
`now i` and `outcome i` model the uuid, wall clock and provider behaviour at
chunk `i`, fixed across runs. -/
def sendWorkerLoop (chunks : List (List String)) (newEmail : Nat → EmailRow)
    (now : Nat → String) (outcome : Nat → ChunkOutcome) (pauseAt : Option Nat)
    (idx : Nat) (s : TuiState) : TuiState :=
  if h : idx < chunks.length then
    if pauseAt = some idx then
      { s with is_paused := true, current_batch_index := idx }
    else
      let s1 := tuiProcessChunk (newEmail idx) (now idx) (outcome idx)
        (chunks.get ⟨idx, h⟩) s
      sendWorkerLoop chunks newEmail now outcome pauseAt (idx + 1)
        { s1 with
          current_batch_index := idx + 1
          processedLog := s1.processedLog ++ [idx] }
  else s
termination_by chunks.length - idx

/-- `_start_sending`: counters, failed list, pause flag and cursor are reset
(`current_email_id` is not) before the worker starts. -/
def startSendingState (db : DBState) (prev_email_id : Option String) : TuiState :=
  { is_paused := false
    total_sent := 0
    total_failed := 0
    failed_emails := []
    current_batch_index := 0
    current_email_id := prev_email_id
    db := db
    processedLog := [] }

/-- `_resume_sending`: clear the pause flag and re-run the worker, which
re-enters the loop at the saved `current_batch_index`. -/
def resumeSending (chunks : List (List String)) (newEmail : Nat → EmailRow)
    (now : Nat → String) (outcome : Nat → ChunkOutcome) (pauseAt : Option Nat)
    (s : TuiState) : TuiState :=
  sendWorkerLoop chunks newEmail now outcome pauseAt s.current_batch_index
    { s with is_paused := false }

/-- The state reset performed by `_retry_failed` (src/old_tui/screens/send.py
lines 315-351): failed list, failed counter and cursor are cleared;
`total_sent` and `current_email_id` are not touched. -/
def retrySetupState (s : TuiState) : TuiState :=
  { s with
    failed_emails := []
    total_failed := 0
    is_paused := false
    current_batch_index := 0
    processedLog := [] }

/-- `_retry_failed`: guarded on a non-empty failed list; the new run's input
is `[item["email"] for item in self.failed_emails]`. -/
def retryFailed (batch_size : Nat) (newEmail : Nat → EmailRow) (now : Nat → String)
    (outcome : Nat → ChunkOutcome) (s : TuiState) : TuiState :=
  if s.failed_emails.isEmpty then s
  else
    sendWorkerLoop (chunksOf batch_size (s.failed_emails.map Prod.fst))
      newEmail now outcome none 0 (retrySetupState s)

/-- The local state of the API `event_generator`
(src/api/routers/email.py lines 55-250). -/
structure ApiState where
  total_sent : Nat
  total_failed : Nat
  current_email_id : Option String
  db : DBState
deriving DecidableEq

/-- Lazy template creation of the API path (`if current_email_id is None`). -/
def apiEnsureEmailId (newEmail : EmailRow) (s : ApiState) : String × ApiState :=
  match s.current_email_id with
  | some eid => (eid, s)
  | none =>
      (newEmail.id,
       { s with current_email_id := some newEmail.id, db := s.db.add_email newEmail })

/-- One batch iteration of the API loop (src/api/routers/email.py lines
94-232).  On `ClientError` a failed row is written per recipient; on a
generic exception only `total_failed` moves — nothing is written to the
database. -/
def apiProcessBatch (newEmail : EmailRow) (now : String) (outcome : ChunkOutcome)
    (batch : List String) (s : ApiState) : ApiState :=
  match outcome with
  | .success _ =>
      let s1 := { s with total_sent := s.total_sent + batch.length }
      let p := apiEnsureEmailId newEmail s1
      { p.2 with db := batch.foldl (fun db r => db.add_sent p.1 r "bcc" now) p.2.db }
  | .clientError msg =>
      let s1 := { s with total_failed := s.total_failed + batch.length }
      let p := apiEnsureEmailId newEmail s1
      { p.2 with
        db := batch.foldl (fun db r => db.add_failed_email p.1 r msg now) p.2.db }
  | .otherError _ =>
      { s with total_failed := s.total_failed + batch.length }

/-- The API batch loop (no pause/cancel path exists in the API). -/
def apiSendLoop (chunks : List (List String)) (newEmail : Nat → EmailRow)
    (now : Nat → String) (outcome : Nat → ChunkOutcome) (idx : Nat)
    (s : ApiState) : ApiState :=
  if h : idx < chunks.length then
    apiSendLoop chunks newEmail now outcome (idx + 1)
      (apiProcessBatch (newEmail idx) (now idx) (outcome idx)
        (chunks.get ⟨idx, h⟩) s)
  else s
termination_by chunks.length - idx

/-- An empty store. -/
def dbEmpty : DBState := { emails := [], sent := [], failed := [] }

/-- A concrete Email record used for evaluating the models. -/
def emailA : EmailRow := ⟨"id1", "Subj", "Body", "Sender", ""⟩

/-- The API generator's initial local state. -/
def apiState0 : ApiState := ⟨0, 0, none, dbEmpty⟩

/-- A TUI session state after a run that left two failures behind. -/
def tuiStateWithFailures : TuiState :=
  { is_paused := false
    total_sent := 7
    total_failed := 2
    failed_emails := [("a@x.com", "err"), ("b@x.com", "err")]
    current_batch_index := 3
    current_email_id := some "id1"
    db := dbEmpty
    processedLog := [] }

/-- The fields of a sent row other than `email_id` (for stating that the
consolidation touches nothing else). -/
def sentProj (r : SentRow) : Nat × String × String × String :=
  (r.rowid, r.sent_to, r.sent_type, r.sent_at)

/-- The fields of a failed row other than `email_id`. -/
def failedProj (r : FailedRow) : Nat × String × String × String × Bool :=
  (r.rowid, r.recipient, r.error_reason, r.failed_at, r.retried)

/-- All non-canonical (to-be-deleted) ids of a list of duplicate groups. -/
def allDups (gs : List (List String)) : List String := (gs.map List.tail).flatten

/-- The id of the oldest (first-inserted) Template whose content key is `k`. -/
def firstTemplateId (emails : List EmailRow) (k : String × String × String) :
    Option String :=
  (emails.find? (fun e => groupKey e == k)).map (fun e => e.id)

/-- A store with two duplicate Templates sharing history rows (for
evaluating the consolidation model on a concrete input). -/
def dbDupTemplates : DBState :=
  { emails := [⟨"e1", "Hi", "Hello", "a@b.com", ""⟩, ⟨"e2", "Hi", "Hello", "a@b.com", ""⟩,
      ⟨"e3", "Other", "Body", "b@b.com", ""⟩]
    sent := [⟨0, "e1", "x@a.com", "bcc", "t1"⟩, ⟨1, "e2", "y@a.com", "bcc", "t2"⟩]
    failed := [⟨0, "e2", "z@a.com", "boom", "t3", false⟩] }

theorem chunksOf_nil (b : Nat) : chunksOf b ([] : List α) = [] := by
  rw [chunksOf]
  simp

theorem chunksOf_join (b : Nat) (hb : 0 < b) (l : List α) :
    (chunksOf b l).flatten = l := by
  rw [chunksOf]
  split
  · rename_i h
    rcases h with h | h
    · omega
    · simp [List.eq_nil_of_length_eq_zero h]
  · rename_i h
    push_neg at h
    have hb0 : b ≠ 0 := h.1
    have hne : l.length ≠ 0 := h.2
    have ih := chunksOf_join b hb (l.drop b)
    simp [ih]
termination_by l.length
decreasing_by
  simp only [List.length_drop]
  omega

theorem chunksOf_length (b : Nat) (hb : 0 < b) (l : List α) :
    (chunksOf b l).length = totalBatches l.length b := by
  rw [chunksOf]
  split
  · rename_i h
    rcases h with h | h
    · omega
    · have hz : b - 1 < b := by omega
      simp [h, totalBatches, Nat.div_eq_of_lt hz]
  · rename_i h
    push_neg at h
    have hb0 : b ≠ 0 := h.1
    have hne : l.length ≠ 0 := h.2
    have ih := chunksOf_length b hb (l.drop b)
    simp only [List.length_cons, ih, List.length_drop, totalBatches]
    have key : l.length + b - 1 = (l.length - 1) + b := by omega
    rw [key, Nat.add_div_right _ hb]
    rcases Nat.lt_or_ge l.length b with hlt | hge
    · have h1 : l.length - b + b - 1 = b - 1 := by omega
      rw [h1, Nat.div_eq_of_lt (show b - 1 < b by omega),
        Nat.div_eq_of_lt (show l.length - 1 < b by omega)]
    · have h1 : l.length - b + b - 1 = l.length - 1 := by omega
      rw [h1]
termination_by l.length
decreasing_by
  simp only [List.length_drop]
  omega

theorem chunksOf_dropLast (b : Nat) (hb : 0 < b) (l : List α) :
    ∀ c ∈ (chunksOf b l).dropLast, c.length = b := by
  rw [chunksOf]
  split
  · simp
  · rename_i h
    push_neg at h
    have hb0 : b ≠ 0 := h.1
    have hne : l.length ≠ 0 := h.2
    have ih := chunksOf_dropLast b hb (l.drop b)
    intro c hc
    rcases le_or_lt l.length b with hle | hgt
    · have hdrop : l.drop b = [] := by
        apply List.eq_nil_of_length_eq_zero
        simp only [List.length_drop]
        omega
      rw [hdrop, chunksOf_nil] at hc
      simp at hc
    · have hnil : chunksOf b (l.drop b) ≠ [] := by
        rw [chunksOf]
        split
        · rename_i h2
          rcases h2 with h2 | h2
          · omega
          · simp only [List.length_drop] at h2
            omega
        · simp
      rw [List.dropLast_cons_of_ne_nil hnil] at hc
      rcases List.mem_cons.mp hc with hc | hc
      · subst hc
        simp only [List.length_take]
        omega
      · exact ih c hc
termination_by l.length
decreasing_by
  simp only [List.length_drop]
  omega

/-! ### Helper lemmas: record-writing folds -/

theorem foldl_add_sent_map (eid t now : String) (batch : List String) (db : DBState) :
    ((batch.foldl (fun d r => d.add_sent eid r t now) db).sent.map
      (fun r => (r.email_id, r.sent_to, r.sent_type))) =
    db.sent.map (fun r => (r.email_id, r.sent_to, r.sent_type)) ++
      batch.map (fun r => (eid, r, t)) := by
  induction batch generalizing db with
  | nil => simp
  | cons a l ih =>
      simp only [List.foldl_cons]
      rw [ih]
      simp [DBState.add_sent]

theorem foldl_add_sent_failed (eid t now : String) (batch : List String) (db : DBState) :
    (batch.foldl (fun d r => d.add_sent eid r t now) db).failed = db.failed := by
  induction batch generalizing db with
  | nil => rfl
  | cons a l ih =>
      simp only [List.foldl_cons]
      rw [ih]
      simp [DBState.add_sent]

theorem foldl_add_sent_emails (eid t now : String) (batch : List String) (db : DBState) :
    (batch.foldl (fun d r => d.add_sent eid r t now) db).emails = db.emails := by
  induction batch generalizing db with
  | nil => rfl
  | cons a l ih =>
      simp only [List.foldl_cons]
      rw [ih]
      simp [DBState.add_sent]

theorem foldl_add_failed_map (eid msg now : String) (batch : List String) (db : DBState) :
    ((batch.foldl (fun d r => d.add_failed_email eid r msg now) db).failed.map
      (fun r => (r.email_id, r.recipient, r.error_reason))) =
    db.failed.map (fun r => (r.email_id, r.recipient, r.error_reason)) ++
      batch.map (fun r => (eid, r, msg)) := by
  induction batch generalizing db with
  | nil => simp
  | cons a l ih =>
      simp only [List.foldl_cons]
      rw [ih]
      simp [DBState.add_failed_email]

theorem foldl_add_failed_sent (eid msg now : String) (batch : List String) (db : DBState) :
    (batch.foldl (fun d r => d.add_failed_email eid r msg now) db).sent = db.sent := by
  induction batch generalizing db with
  | nil => rfl
  | cons a l ih =>
      simp only [List.foldl_cons]
      rw [ih]
      simp [DBState.add_failed_email]

theorem tuiEnsureEmailId_fst (n : EmailRow) (s : TuiState) :
    (tuiEnsureEmailId n s).1 = s.current_email_id.getD n.id := by
  cases h : s.current_email_id <;> simp [tuiEnsureEmailId, h]

theorem tuiEnsureEmailId_sent (n : EmailRow) (s : TuiState) :
    (tuiEnsureEmailId n s).2.db.sent = s.db.sent := by
  cases h : s.current_email_id with
  | none =>
      simp only [tuiEnsureEmailId, h, DBState.add_email]
      split <;> rfl
  | some eid => simp [tuiEnsureEmailId, h]

theorem tuiEnsureEmailId_failed (n : EmailRow) (s : TuiState) :
    (tuiEnsureEmailId n s).2.db.failed = s.db.failed := by
  cases h : s.current_email_id with
  | none =>
      simp only [tuiEnsureEmailId, h, DBState.add_email]
      split <;> rfl
  | some eid => simp [tuiEnsureEmailId, h]

theorem tuiEnsureEmailId_counters (n : EmailRow) (s : TuiState) :
    (tuiEnsureEmailId n s).2.total_sent = s.total_sent ∧
    (tuiEnsureEmailId n s).2.total_failed = s.total_failed ∧
    (tuiEnsureEmailId n s).2.failed_emails = s.failed_emails ∧
    (tuiEnsureEmailId n s).2.is_paused = s.is_paused ∧
    (tuiEnsureEmailId n s).2.current_batch_index = s.current_batch_index ∧
    (tuiEnsureEmailId n s).2.processedLog = s.processedLog := by
  cases h : s.current_email_id <;> simp [tuiEnsureEmailId, h]

theorem apiEnsureEmailId_fst (n : EmailRow) (s : ApiState) :
    (apiEnsureEmailId n s).1 = s.current_email_id.getD n.id := by
  cases h : s.current_email_id <;> simp [apiEnsureEmailId, h]

theorem apiEnsureEmailId_sent (n : EmailRow) (s : ApiState) :
    (apiEnsureEmailId n s).2.db.sent = s.db.sent := by
  cases h : s.current_email_id with
  | none =>
      simp only [apiEnsureEmailId, h, DBState.add_email]
      split <;> rfl
  | some eid => simp [apiEnsureEmailId, h]

theorem apiEnsureEmailId_failed (n : EmailRow) (s : ApiState) :
    (apiEnsureEmailId n s).2.db.failed = s.db.failed := by
  cases h : s.current_email_id with
  | none =>
      simp only [apiEnsureEmailId, h, DBState.add_email]
      split <;> rfl
  | some eid => simp [apiEnsureEmailId, h]

theorem apiEnsureEmailId_counters (n : EmailRow) (s : ApiState) :
    (apiEnsureEmailId n s).2.total_sent = s.total_sent ∧
    (apiEnsureEmailId n s).2.total_failed = s.total_failed := by
  cases h : s.current_email_id <;> simp [apiEnsureEmailId, h]

theorem tuiEnsureEmailId_total_sent (n : EmailRow) (s : TuiState) :
    (tuiEnsureEmailId n s).2.total_sent = s.total_sent := by
  cases h : s.current_email_id <;> simp [tuiEnsureEmailId, h]

theorem tuiEnsureEmailId_total_failed (n : EmailRow) (s : TuiState) :
    (tuiEnsureEmailId n s).2.total_failed = s.total_failed := by
  cases h : s.current_email_id <;> simp [tuiEnsureEmailId, h]

theorem tuiEnsureEmailId_failed_emails (n : EmailRow) (s : TuiState) :
    (tuiEnsureEmailId n s).2.failed_emails = s.failed_emails := by
  cases h : s.current_email_id <;> simp [tuiEnsureEmailId, h]

theorem tuiProcessChunk_totals (n : EmailRow) (now : String) (oc : ChunkOutcome)
    (batch : List String) (s : TuiState) :
    (tuiProcessChunk n now oc batch s).total_sent +
      (tuiProcessChunk n now oc batch s).total_failed =
    s.total_sent + s.total_failed + batch.length := by
  cases oc <;>
    simp [tuiProcessChunk, tuiEnsureEmailId_total_sent, tuiEnsureEmailId_total_failed] <;>
    omega

theorem sendWorkerLoop_totals (chunks : List (List String)) (nE : Nat → EmailRow)
    (now : Nat → String) (oc : Nat → ChunkOutcome) (idx : Nat) (s : TuiState) :
    (sendWorkerLoop chunks nE now oc none idx s).total_sent +
      (sendWorkerLoop chunks nE now oc none idx s).total_failed =
    s.total_sent + s.total_failed + ((chunks.drop idx).map List.length).sum := by
  rw [sendWorkerLoop]
  split
  · rename_i h
    simp only [reduceCtorEq, if_false]
    have ih := sendWorkerLoop_totals chunks nE now oc (idx + 1)
      { tuiProcessChunk (nE idx) (now idx) (oc idx) (chunks.get ⟨idx, h⟩) s with
        current_batch_index := idx + 1
        processedLog := (tuiProcessChunk (nE idx) (now idx) (oc idx)
          (chunks.get ⟨idx, h⟩) s).processedLog ++ [idx] }
    rw [ih]
    have htot := tuiProcessChunk_totals (nE idx) (now idx) (oc idx)
      (chunks.get ⟨idx, h⟩) s
    have hdrop : chunks.drop idx = chunks.get ⟨idx, h⟩ :: chunks.drop (idx + 1) := by
      simp only [List.get_eq_getElem]
      exact List.drop_eq_getElem_cons h
    rw [hdrop]
    simp only [List.map_cons, List.sum_cons]
    omega
  · rename_i h
    rw [List.drop_eq_nil_of_le (by omega)]
    simp
termination_by chunks.length - idx

theorem tuiEnsureEmailId_is_paused (n : EmailRow) (s : TuiState) :
    (tuiEnsureEmailId n s).2.is_paused = s.is_paused := by
  cases h : s.current_email_id <;> simp [tuiEnsureEmailId, h]

theorem tuiEnsureEmailId_log (n : EmailRow) (s : TuiState) :
    (tuiEnsureEmailId n s).2.processedLog = s.processedLog := by
  cases h : s.current_email_id <;> simp [tuiEnsureEmailId, h]

theorem tuiProcessChunk_is_paused (n : EmailRow) (now : String) (oc : ChunkOutcome)
    (batch : List String) (s : TuiState) :
    (tuiProcessChunk n now oc batch s).is_paused = s.is_paused := by
  cases oc <;> simp [tuiProcessChunk, tuiEnsureEmailId_is_paused]

theorem tuiProcessChunk_log (n : EmailRow) (now : String) (oc : ChunkOutcome)
    (batch : List String) (s : TuiState) :
    (tuiProcessChunk n now oc batch s).processedLog = s.processedLog := by
  cases oc <;> simp [tuiProcessChunk, tuiEnsureEmailId_log]

/-! ### Worker-loop unfolding and pause/resume lemmas -/

theorem sendWorkerLoop_stop (chunks : List (List String)) (nE : Nat → EmailRow)
    (now : Nat → String) (oc : Nat → ChunkOutcome) (pa : Option Nat) (idx : Nat)
    (s : TuiState) (h : ¬ idx < chunks.length) :
    sendWorkerLoop chunks nE now oc pa idx s = s := by
  rw [sendWorkerLoop]
  simp [h]

theorem sendWorkerLoop_pause_here (chunks : List (List String)) (nE : Nat → EmailRow)
    (now : Nat → String) (oc : Nat → ChunkOutcome) (k : Nat) (s : TuiState)
    (h : k < chunks.length) :
    sendWorkerLoop chunks nE now oc (some k) k s =
      { s with is_paused := true, current_batch_index := k } := by
  rw [sendWorkerLoop]
  simp [h]

theorem sendWorkerLoop_step (chunks : List (List String)) (nE : Nat → EmailRow)
    (now : Nat → String) (oc : Nat → ChunkOutcome) (pa : Option Nat) (idx : Nat)
    (s : TuiState) (h : idx < chunks.length) (hne : pa ≠ some idx) :
    sendWorkerLoop chunks nE now oc pa idx s =
      sendWorkerLoop chunks nE now oc pa (idx + 1)
        { tuiProcessChunk (nE idx) (now idx) (oc idx) (chunks.get ⟨idx, h⟩) s with
          current_batch_index := idx + 1
          processedLog := (tuiProcessChunk (nE idx) (now idx) (oc idx)
            (chunks.get ⟨idx, h⟩) s).processedLog ++ [idx] } := by
  conv_lhs => rw [sendWorkerLoop]
  simp [h, hne]

theorem sendWorkerLoop_log_none (chunks : List (List String)) (nE : Nat → EmailRow)
    (now : Nat → String) (oc : Nat → ChunkOutcome) (idx : Nat) (s : TuiState) :
    (sendWorkerLoop chunks nE now oc none idx s).processedLog =
      s.processedLog ++ List.range' idx (chunks.length - idx) := by
  by_cases h : idx < chunks.length
  · rw [sendWorkerLoop_step chunks nE now oc none idx s h (by simp)]
    rw [sendWorkerLoop_log_none chunks nE now oc (idx + 1) _]
    simp only [tuiProcessChunk_log]
    have hn : chunks.length - idx = (chunks.length - (idx + 1)) + 1 := by omega
    rw [hn, List.range'_succ]
    simp
  · rw [sendWorkerLoop_stop chunks nE now oc none idx s h]
    have hn : chunks.length - idx = 0 := by omega
    simp [hn]
termination_by chunks.length - idx
decreasing_by omega

theorem sendWorkerLoop_pause_fields (chunks : List (List String))
    (nE : Nat → EmailRow) (now : Nat → String) (oc : Nat → ChunkOutcome)
    (k idx : Nat) (s : TuiState) (hik : idx ≤ k) (hk : k < chunks.length) :
    (sendWorkerLoop chunks nE now oc (some k) idx s).is_paused = true ∧
    (sendWorkerLoop chunks nE now oc (some k) idx s).current_batch_index = k ∧
    (sendWorkerLoop chunks nE now oc (some k) idx s).processedLog =
      s.processedLog ++ List.range' idx (k - idx) := by
  rcases Nat.eq_or_lt_of_le hik with heq | hlt
  · subst heq
    rw [sendWorkerLoop_pause_here chunks nE now oc idx s hk]
    simp
  · have hidx : idx < chunks.length := Nat.lt_trans hlt hk
    have hne : (some k : Option Nat) ≠ some idx := by
      simp only [ne_eq, Option.some.injEq]
      omega
    rw [sendWorkerLoop_step chunks nE now oc (some k) idx s hidx hne]
    have ih := sendWorkerLoop_pause_fields chunks nE now oc k (idx + 1)
      { tuiProcessChunk (nE idx) (now idx) (oc idx) (chunks.get ⟨idx, hidx⟩) s with
        current_batch_index := idx + 1
        processedLog := (tuiProcessChunk (nE idx) (now idx) (oc idx)
          (chunks.get ⟨idx, hidx⟩) s).processedLog ++ [idx] } hlt hk
    refine ⟨ih.1, ih.2.1, ?_⟩
    rw [ih.2.2]
    simp only [tuiProcessChunk_log]
    have hn : k - idx = (k - (idx + 1)) + 1 := by omega
    rw [hn, List.range'_succ]
    simp
termination_by k - idx
decreasing_by omega

theorem sendWorkerLoop_resume_of_pause (chunks : List (List String))
    (nE : Nat → EmailRow) (now : Nat → String) (oc : Nat → ChunkOutcome)
    (k idx : Nat) (s : TuiState) (hik : idx ≤ k) (hk : k < chunks.length)
    (hp : s.is_paused = false) (hc : s.current_batch_index = idx) :
    sendWorkerLoop chunks nE now oc none
      (sendWorkerLoop chunks nE now oc (some k) idx s).current_batch_index
      { sendWorkerLoop chunks nE now oc (some k) idx s with is_paused := false } =
    sendWorkerLoop chunks nE now oc none idx s := by
  rcases Nat.eq_or_lt_of_le hik with heq | hlt
  · subst heq
    rw [sendWorkerLoop_pause_here chunks nE now oc idx s hk]
    have hs : ({ { s with is_paused := true, current_batch_index := idx } with
        is_paused := false } : TuiState) = s := by
      obtain ⟨p, a, b, c, d, e, f, g⟩ := s
      simp only [TuiState.mk.injEq, and_true, true_and]
      constructor
      · exact hp.symm
      · exact hc.symm
    rw [hs]
  · have hidx : idx < chunks.length := Nat.lt_trans hlt hk
    have hne : (some k : Option Nat) ≠ some idx := by
      simp only [ne_eq, Option.some.injEq]
      omega
    rw [sendWorkerLoop_step chunks nE now oc (some k) idx s hidx hne,
      sendWorkerLoop_step chunks nE now oc none idx s hidx (by simp)]
    exact sendWorkerLoop_resume_of_pause chunks nE now oc k (idx + 1) _ hlt hk
      (by simp [tuiProcessChunk_is_paused, hp]) rfl
termination_by k - idx
decreasing_by omega

/-! ### Theorems for the individual claims -/

/-- C10: the Database constructor always opens "emails.db"; the `file_name`
argument is ignored, so two instances built with different arguments operate
on the same store. -/
theorem claim_database_path_fixed (f g : String) :
    Database.initPath f = "emails.db" ∧ Database.initPath f = Database.initPath g :=
  ⟨rfl, rfl⟩

/-- C4: for every recipient list and positive batch size, the chunks are
consecutive slices whose concatenation is the list in order, their count is
ceil(len/b), and every chunk except possibly the last has length exactly b. -/
theorem claim_chunks_partition (R : List String) (b : Nat) (hb : 0 < b) :
    (chunksOf b R).flatten = R ∧
    (chunksOf b R).length = totalBatches R.length b ∧
    ∀ c ∈ (chunksOf b R).dropLast, c.length = b :=
  ⟨chunksOf_join b hb R, chunksOf_length b hb R, chunksOf_dropLast b hb R⟩

theorem claim_chunks_partition_witness :
    0 < 2 ∧
      ((chunksOf 2 ["a", "b", "c", "d", "e"]).flatten = ["a", "b", "c", "d", "e"] ∧
        (chunksOf 2 ["a", "b", "c", "d", "e"]).length =
          totalBatches (["a", "b", "c", "d", "e"] : List String).length 2 ∧
        ∀ c ∈ (chunksOf 2 ["a", "b", "c", "d", "e"]).dropLast, c.length = 2) :=
  ⟨by decide, claim_chunks_partition ["a", "b", "c", "d", "e"] 2 (by decide)⟩

/-- C6 counterexample: with `use_bcc = false` the Destination puts the batch
in To, yet both orchestrators still record sendMode "bcc", not "to". -/
theorem claim_sent_mode_counterexample :
    (sesDestination false "src@x.com" ["r1@x.com"]).2 = ["r1@x.com"] ∧
    ((tuiProcessChunk emailA "t0" (ChunkOutcome.success "mid") ["r1@x.com"]
        (startSendingState dbEmpty none)).db.sent.map (fun r => r.sent_type)) =
      ["bcc"] ∧
    ((apiProcessBatch emailA "t0" (ChunkOutcome.success "mid") ["r1@x.com"]
        apiState0).db.sent.map (fun r => r.sent_type)) = ["bcc"] ∧
    ("bcc" : String) ≠ "to" :=
  ⟨rfl, rfl, rfl, by decide⟩

/-- C6 (amended): every successful chunk appends one SentRecord per recipient
and all of them carry sendMode "bcc" regardless of the useBcc setting, which
only selects the provider Destination fields (Bcc vs To). -/
theorem claim_sent_records_bcc (newEmail : EmailRow) (now mid to_addr : String)
    (batch : List String) (s : TuiState) (sa : ApiState) :
    ((tuiProcessChunk newEmail now (ChunkOutcome.success mid) batch s).db.sent.map
        (fun r => (r.email_id, r.sent_to, r.sent_type)) =
      s.db.sent.map (fun r => (r.email_id, r.sent_to, r.sent_type)) ++
        batch.map (fun r => (s.current_email_id.getD newEmail.id, r, "bcc"))) ∧
    ((apiProcessBatch newEmail now (ChunkOutcome.success mid) batch sa).db.sent.map
        (fun r => (r.email_id, r.sent_to, r.sent_type)) =
      sa.db.sent.map (fun r => (r.email_id, r.sent_to, r.sent_type)) ++
        batch.map (fun r => (sa.current_email_id.getD newEmail.id, r, "bcc"))) ∧
    (sesDestination true to_addr batch).1 = batch ∧
    (sesDestination false to_addr batch).2 = batch := by
  refine ⟨?_, ?_, rfl, rfl⟩
  · simp only [tuiProcessChunk]
    rw [foldl_add_sent_map, tuiEnsureEmailId_sent, tuiEnsureEmailId_fst]
  · simp only [apiProcessBatch]
    rw [foldl_add_sent_map, apiEnsureEmailId_sent, apiEnsureEmailId_fst]

/-- C5 counterexample: in the API loop a generic (transport/unexpected)
exception increments the failure counter but appends no FailedRecord at all,
unlike a provider ClientError. -/
theorem claim_error_recording_counterexample :
    (apiProcessBatch emailA "t0" (ChunkOutcome.otherError "boom") ["r1@x.com"]
        apiState0).total_failed = 1 ∧
    (apiProcessBatch emailA "t0" (ChunkOutcome.otherError "boom") ["r1@x.com"]
        apiState0).db.failed = [] :=
  ⟨rfl, rfl⟩

/-- C5 (amended): in the TUI worker provider ClientErrors and generic
exceptions are recorded identically — counter + failed list + one
FailedRecord per recipient with the error text — and the run continues
through every chunk; in the API loop only ClientErrors write FailedRecords,
a generic exception moves only `total_failed` and writes nothing. -/
theorem claim_error_recording (newEmail : EmailRow) (now msg : String)
    (batch : List String) (s : TuiState) (sa : ApiState)
    (chunks : List (List String)) (nE : Nat → EmailRow) (nowF : Nat → String)
    (oc : Nat → ChunkOutcome) (s0 : TuiState) :
    (tuiProcessChunk newEmail now (ChunkOutcome.otherError msg) batch s =
      tuiProcessChunk newEmail now (ChunkOutcome.clientError msg) batch s) ∧
    ((tuiProcessChunk newEmail now (ChunkOutcome.clientError msg) batch s).total_failed =
      s.total_failed + batch.length) ∧
    ((tuiProcessChunk newEmail now (ChunkOutcome.clientError msg) batch s).failed_emails =
      s.failed_emails ++ batch.map (fun r => (r, msg))) ∧
    ((tuiProcessChunk newEmail now (ChunkOutcome.clientError msg) batch s).db.failed.map
        (fun r => (r.email_id, r.recipient, r.error_reason)) =
      s.db.failed.map (fun r => (r.email_id, r.recipient, r.error_reason)) ++
        batch.map (fun r => (s.current_email_id.getD newEmail.id, r, msg))) ∧
    ((tuiProcessChunk newEmail now (ChunkOutcome.clientError msg) batch s).db.sent =
      s.db.sent) ∧
    ((apiProcessBatch newEmail now (ChunkOutcome.clientError msg) batch sa).db.failed.map
        (fun r => (r.email_id, r.recipient, r.error_reason)) =
      sa.db.failed.map (fun r => (r.email_id, r.recipient, r.error_reason)) ++
        batch.map (fun r => (sa.current_email_id.getD newEmail.id, r, msg))) ∧
    ((apiProcessBatch newEmail now (ChunkOutcome.otherError msg) batch sa).total_failed =
      sa.total_failed + batch.length) ∧
    ((apiProcessBatch newEmail now (ChunkOutcome.otherError msg) batch sa).db = sa.db) ∧
    ((sendWorkerLoop chunks nE nowF oc none 0 s0).total_sent +
        (sendWorkerLoop chunks nE nowF oc none 0 s0).total_failed =
      s0.total_sent + s0.total_failed + (chunks.map List.length).sum) := by
  refine ⟨rfl, ?_, ?_, ?_, ?_, ?_, rfl, rfl, ?_⟩
  · simp [tuiProcessChunk, tuiEnsureEmailId_total_failed]
  · simp [tuiProcessChunk, tuiEnsureEmailId_failed_emails]
  · simp only [tuiProcessChunk]
    rw [foldl_add_failed_map, tuiEnsureEmailId_failed, tuiEnsureEmailId_fst]
  · simp only [tuiProcessChunk]
    rw [foldl_add_failed_sent, tuiEnsureEmailId_sent]
  · simp only [apiProcessBatch]
    rw [foldl_add_failed_map, apiEnsureEmailId_failed, apiEnsureEmailId_fst]
  · simpa using sendWorkerLoop_totals chunks nE nowF oc 0 s0

/-- C9: `_retry_failed` starts a new run over exactly the previously-failed
addresses, resets the failure counter, failed list and batch cursor, and
leaves `total_sent` (and the database and the current template id)
unchanged. -/
theorem claim_retry_frame (batch_size : Nat) (nE : Nat → EmailRow)
    (now : Nat → String) (oc : Nat → ChunkOutcome) (s : TuiState)
    (h : s.failed_emails ≠ []) :
    retryFailed batch_size nE now oc s =
      sendWorkerLoop (chunksOf batch_size (s.failed_emails.map Prod.fst))
        nE now oc none 0 (retrySetupState s) ∧
    (retrySetupState s).total_sent = s.total_sent ∧
    (retrySetupState s).total_failed = 0 ∧
    (retrySetupState s).failed_emails = [] ∧
    (retrySetupState s).current_batch_index = 0 ∧
    (retrySetupState s).db = s.db ∧
    (retrySetupState s).current_email_id = s.current_email_id := by
  refine ⟨?_, rfl, rfl, rfl, rfl, rfl, rfl⟩
  rw [retryFailed, if_neg]
  simp [h]

/-- C1: pausing at chunk boundary `k` and resuming processes exactly the
remaining chunks `k..end` — none re-processed, none skipped — and the resumed
run ends in exactly the final state (in particular the same
`total_sent + total_failed`) of an uninterrupted run with the same inputs and
provider behaviour. -/
theorem claim_pause_resume (R : List String) (b : Nat) (nE : Nat → EmailRow)
    (now : Nat → String) (oc : Nat → ChunkOutcome) (db : DBState)
    (prev : Option String) (k : Nat) (hk : k < (chunksOf b R).length) :
    let chunks := chunksOf b R
    let sP := sendWorkerLoop chunks nE now oc (some k) 0 (startSendingState db prev)
    let sR := resumeSending chunks nE now oc none sP
    let sF := sendWorkerLoop chunks nE now oc none 0 (startSendingState db prev)
    sP.is_paused = true ∧
    sP.current_batch_index = k ∧
    sP.processedLog = List.range k ∧
    sR = sF ∧
    sR.processedLog = sP.processedLog ++ List.range' k (chunks.length - k) ∧
    sR.processedLog = List.range chunks.length ∧
    sR.total_sent + sR.total_failed = sF.total_sent + sF.total_failed := by
  intro chunks sP sR sF
  have hk2 : k ≤ chunks.length := Nat.le_of_lt hk
  have hpf := sendWorkerLoop_pause_fields chunks nE now oc k 0
    (startSendingState db prev) (Nat.zero_le k) hk
  have hres : sR = sF :=
    sendWorkerLoop_resume_of_pause chunks nE now oc k 0 (startSendingState db prev)
      (Nat.zero_le k) hk rfl rfl
  have hlogF : sF.processedLog = List.range chunks.length := by
    have h := sendWorkerLoop_log_none chunks nE now oc 0 (startSendingState db prev)
    simpa [startSendingState, List.range_eq_range'] using h
  have hsplit : List.range chunks.length =
      List.range' 0 k ++ List.range' k (chunks.length - k) := by
    rw [List.range_eq_range']
    have h1 : List.range' 0 k ++ List.range' (0 + k) (chunks.length - k) =
        List.range' 0 ((chunks.length - k) + k) :=
      List.range'_append_1 0 k (chunks.length - k)
    rw [Nat.zero_add] at h1
    rw [show (chunks.length - k) + k = chunks.length from by omega] at h1
    exact h1.symm
  refine ⟨hpf.1, hpf.2.1, ?_, hres, ?_, ?_, by rw [hres]⟩
  · have h := hpf.2.2
    simpa [startSendingState, List.range_eq_range'] using h
  · rw [hres, hlogF, hpf.2.2]
    simp only [startSendingState, List.nil_append, Nat.sub_zero]
    exact hsplit
  · rw [hres, hlogF]

theorem claim_pause_resume_witness :
    1 < (chunksOf 1 ["a", "b", "c"]).length ∧
    (sendWorkerLoop (chunksOf 1 ["a", "b", "c"]) (fun _ => emailA) (fun _ => "t")
        (fun _ => ChunkOutcome.success "m") (some 1) 0
        (startSendingState dbEmpty none)).is_paused = true := by
  have hk : 1 < (chunksOf 1 ["a", "b", "c"]).length := by
    rw [chunksOf_length 1 (by decide)]
    decide
  exact ⟨hk, (claim_pause_resume ["a", "b", "c"] 1 (fun _ => emailA) (fun _ => "t")
    (fun _ => ChunkOutcome.success "m") dbEmpty none 1 hk).1⟩

theorem claim_retry_frame_witness :
    tuiStateWithFailures.failed_emails ≠ [] ∧
    (retrySetupState tuiStateWithFailures).total_sent =
      tuiStateWithFailures.total_sent :=
  ⟨by decide, (claim_retry_frame 1 (fun _ => emailA) (fun _ => "t")
      (fun _ => ChunkOutcome.success "m") tuiStateWithFailures (by decide)).2.1⟩

theorem mem_foldl_union (st : DBState) (eids : List String) (init : Finset String)
    (x : String) :
    (x ∈ eids.foldl (fun acc eid =>
        acc ∪ (get_sent_recipients_by_email_id st eid).image pyLower) init) ↔
      (x ∈ init ∨
        ∃ e ∈ eids, x ∈ (get_sent_recipients_by_email_id st e).image pyLower) := by
  induction eids generalizing init with
  | nil => simp
  | cons a l ih =>
      simp only [List.foldl_cons, ih, Finset.mem_union, List.mem_cons]
      constructor
      · rintro ((hx | hx) | ⟨e, he, hx⟩)
        · exact Or.inl hx
        · exact Or.inr ⟨a, Or.inl rfl, hx⟩
        · exact Or.inr ⟨e, Or.inr he, hx⟩
      · rintro (hx | ⟨e, (rfl | he), hx⟩)
        · exact Or.inl (Or.inl hx)
        · exact Or.inl (Or.inr hx)
        · exact Or.inr ⟨e, he, hx⟩

/-- C7 counterexample: the candidate "x@a.com" was already sent to (recorded
as " x@a.com" with leading whitespace): normalizing history by trim +
lowercase, as the claim states, would report 1 already-sent address, but the
code lowercases history without trimming and reports 0. -/
theorem claim_compare_normalization_counterexample :
    (compare_recipients dbWhitespaceHistory ["x@a.com"] none none).already_sent = 0 ∧
    (normalizedCandidates ["x@a.com"] ∩
      specTrimmedHistorical dbWhitespaceHistory).card = 1 := by
  constructor <;> decide

/-- C7 (amended): `compare_recipients` normalizes candidates by trimming and
lowercasing (dropping blanks) but historical addresses by lowercasing only;
against that history set, for each of the three scopes, it returns
alreadySent = candidates ∩ historical and newRecipients = candidates \
historical as sets together with their cardinalities and the count of
distinct normalized candidates, and the two sets partition the candidates. -/
theorem claim_compare_recipients (st : DBState) (cur : List String)
    (eid : String) (eids : List String) (hid : eid ≠ "") (hids : eids ≠ []) :
    ((compare_recipients st cur none none).already_sent_list =
        normalizedCandidates cur ∩ (get_all_sent_recipients st).image pyLower) ∧
    ((compare_recipients st cur none none).new_recipients_list =
        normalizedCandidates cur \ (get_all_sent_recipients st).image pyLower) ∧
    ((compare_recipients st cur (some eid) none).already_sent_list =
        normalizedCandidates cur ∩
          (get_sent_recipients_by_email_id st eid).image pyLower) ∧
    ((compare_recipients st cur (some eid) none).new_recipients_list =
        normalizedCandidates cur \
          (get_sent_recipients_by_email_id st eid).image pyLower) ∧
    (∀ x, x ∈ (compare_recipients st cur none (some eids)).already_sent_list ↔
        (x ∈ normalizedCandidates cur ∧
          ∃ e ∈ eids, x ∈ (get_sent_recipients_by_email_id st e).image pyLower)) ∧
    (∀ x, x ∈ (compare_recipients st cur none (some eids)).new_recipients_list ↔
        (x ∈ normalizedCandidates cur ∧
          ¬ ∃ e ∈ eids,
            x ∈ (get_sent_recipients_by_email_id st e).image pyLower)) ∧
    (∀ a b, (compare_recipients st cur a b).total = (normalizedCandidates cur).card ∧
      (compare_recipients st cur a b).already_sent =
        (compare_recipients st cur a b).already_sent_list.card ∧
      (compare_recipients st cur a b).new_recipients =
        (compare_recipients st cur a b).new_recipients_list.card ∧
      (compare_recipients st cur a b).already_sent_list ∪
          (compare_recipients st cur a b).new_recipients_list =
        normalizedCandidates cur ∧
      (compare_recipients st cur a b).already_sent_list ∩
          (compare_recipients st cur a b).new_recipients_list = ∅) := by
  obtain ⟨e0, es, rfl⟩ := List.exists_cons_of_ne_nil hids
  refine ⟨rfl, rfl, ?_, ?_, ?_, ?_, ?_⟩
  · simp [compare_recipients, compareSentSet, hid]
  · simp [compare_recipients, compareSentSet, hid]
  · intro x
    simp only [compare_recipients, compareSentSet, Finset.mem_inter]
    rw [mem_foldl_union]
    simp
  · intro x
    simp only [compare_recipients, compareSentSet, Finset.mem_sdiff]
    rw [mem_foldl_union]
    simp
  · intro a b
    refine ⟨rfl, rfl, rfl, ?_, ?_⟩
    · show normalizedCandidates cur ∩ compareSentSet st a b ∪
        (normalizedCandidates cur \ compareSentSet st a b) = normalizedCandidates cur
      ext x
      simp only [Finset.mem_union, Finset.mem_inter, Finset.mem_sdiff]
      tauto
    · show normalizedCandidates cur ∩ compareSentSet st a b ∩
        (normalizedCandidates cur \ compareSentSet st a b) = ∅
      ext x
      simp only [Finset.mem_inter, Finset.mem_sdiff, Finset.not_mem_empty, iff_false]
      tauto

theorem claim_compare_recipients_witness :
    (("e1" : String) ≠ "") ∧ ((["e1"] : List String) ≠ []) ∧
    (compare_recipients dbWhitespaceHistory ["x@a.com"] (some "e1") none).already_sent_list =
      normalizedCandidates ["x@a.com"] ∩
        (get_sent_recipients_by_email_id dbWhitespaceHistory "e1").image pyLower :=
  ⟨by decide, by decide,
    (claim_compare_recipients dbWhitespaceHistory ["x@a.com"] "e1" ["e1"]
      (by decide) (by decide)).2.2.1⟩

/-! ### Consolidation lemmas -/

theorem processDup_sent_proj (c d : String) (acc : DBState × MigStats) :
    (processDup c acc d).1.sent.map sentProj = acc.1.sent.map sentProj := by
  simp only [processDup, List.map_map]
  apply List.map_congr_left
  intro r _
  by_cases h : r.email_id == d <;> simp [sentProj, h, Function.comp]

theorem processDup_failed_proj (c d : String) (acc : DBState × MigStats) :
    (processDup c acc d).1.failed.map failedProj = acc.1.failed.map failedProj := by
  simp only [processDup, List.map_map]
  apply List.map_congr_left
  intro r _
  by_cases h : r.email_id == d <;> simp [failedProj, h, Function.comp]

theorem foldl_processDup_sent_proj (c : String) (ds : List String)
    (acc : DBState × MigStats) :
    (ds.foldl (processDup c) acc).1.sent.map sentProj = acc.1.sent.map sentProj := by
  induction ds generalizing acc with
  | nil => rfl
  | cons d ds ih => rw [List.foldl_cons, ih, processDup_sent_proj]

theorem foldl_processDup_failed_proj (c : String) (ds : List String)
    (acc : DBState × MigStats) :
    (ds.foldl (processDup c) acc).1.failed.map failedProj =
      acc.1.failed.map failedProj := by
  induction ds generalizing acc with
  | nil => rfl
  | cons d ds ih => rw [List.foldl_cons, ih, processDup_failed_proj]

theorem foldl_processGroup_sent_proj (gs : List (List String))
    (acc : DBState × MigStats) :
    (gs.foldl processGroup acc).1.sent.map sentProj = acc.1.sent.map sentProj := by
  induction gs generalizing acc with
  | nil => rfl
  | cons g gs ih =>
      rw [List.foldl_cons, ih, processGroup, foldl_processDup_sent_proj]

theorem foldl_processGroup_failed_proj (gs : List (List String))
    (acc : DBState × MigStats) :
    (gs.foldl processGroup acc).1.failed.map failedProj =
      acc.1.failed.map failedProj := by
  induction gs generalizing acc with
  | nil => rfl
  | cons g gs ih =>
      rw [List.foldl_cons, ih, processGroup, foldl_processDup_failed_proj]

theorem processDup_emails (c d : String) (acc : DBState × MigStats) :
    (processDup c acc d).1.emails = acc.1.emails.filter (fun e => !(e.id == d)) := rfl

theorem foldl_processDup_emails (c : String) (ds : List String)
    (acc : DBState × MigStats) :
    (ds.foldl (processDup c) acc).1.emails =
      acc.1.emails.filter (fun e => decide (e.id ∉ ds)) := by
  induction ds generalizing acc with
  | nil => simp
  | cons d ds ih =>
      rw [List.foldl_cons, ih, processDup_emails, List.filter_filter]
      apply List.filter_congr
      intro e _
      by_cases h1 : e.id = d <;> by_cases h2 : e.id ∈ ds <;>
        simp [h1, h2, List.mem_cons]

theorem foldl_processGroup_emails (gs : List (List String))
    (acc : DBState × MigStats) :
    (gs.foldl processGroup acc).1.emails =
      acc.1.emails.filter (fun e => decide (e.id ∉ allDups gs)) := by
  induction gs generalizing acc with
  | nil => simp [allDups]
  | cons g gs ih =>
      rw [List.foldl_cons, ih, processGroup, foldl_processDup_emails,
        List.filter_filter]
      apply List.filter_congr
      intro e _
      have hmem : (e.id ∈ allDups (g :: gs)) ↔ (e.id ∈ g.tail ∨ e.id ∈ allDups gs) := by
        simp [allDups]
      by_cases h1 : e.id ∈ g.tail <;> by_cases h2 : e.id ∈ allDups gs <;>
        simp [h1, h2, hmem]

theorem migrate_emails (st : DBState) :
    (migrate_consolidate_duplicate_emails st).1.emails =
      st.emails.filter (fun e => decide (e.id ∉ allDups (dupGroups st))) :=
  foldl_processGroup_emails (dupGroups st) (st, ⟨(dupGroups st).length, 0, 0, 0⟩)

theorem migrate_sent_proj (st : DBState) :
    (migrate_consolidate_duplicate_emails st).1.sent.map sentProj =
      st.sent.map sentProj :=
  foldl_processGroup_sent_proj (dupGroups st) (st, ⟨(dupGroups st).length, 0, 0, 0⟩)

theorem migrate_failed_proj (st : DBState) :
    (migrate_consolidate_duplicate_emails st).1.failed.map failedProj =
      st.failed.map failedProj :=
  foldl_processGroup_failed_proj (dupGroups st) (st, ⟨(dupGroups st).length, 0, 0, 0⟩)

theorem foldl_processDup_excl (c : String) (ds : List String)
    (acc : DBState × MigStats) (E : List String)
    (hcE : c ∉ E) (hcds : c ∉ ds)
    (haccS : ∀ r ∈ acc.1.sent, r.email_id ∉ E)
    (haccF : ∀ r ∈ acc.1.failed, r.email_id ∉ E) :
    (∀ r ∈ (ds.foldl (processDup c) acc).1.sent,
      r.email_id ∉ E ∧ r.email_id ∉ ds) ∧
    (∀ r ∈ (ds.foldl (processDup c) acc).1.failed,
      r.email_id ∉ E ∧ r.email_id ∉ ds) := by
  induction ds generalizing acc E with
  | nil =>
      exact ⟨fun r hr => ⟨haccS r hr, List.not_mem_nil _⟩,
             fun r hr => ⟨haccF r hr, List.not_mem_nil _⟩⟩
  | cons d ds ih =>
      have hcd : c ≠ d := fun hcontra => hcds (hcontra ▸ List.mem_cons_self d ds)
      have hS' : ∀ r ∈ (processDup c acc d).1.sent, r.email_id ∉ E ++ [d] := by
        intro r hr
        simp only [processDup] at hr
        obtain ⟨r0, hr0, rfl⟩ := List.mem_map.mp hr
        by_cases h : r0.email_id = d
        · simp only [h, beq_self_eq_true, if_true]
          simp [hcE, hcd]
        · simp only [beq_iff_eq, h, if_false]
          simp only [List.mem_append, List.mem_singleton, not_or]
          exact ⟨haccS r0 hr0, h⟩
      have hF' : ∀ r ∈ (processDup c acc d).1.failed, r.email_id ∉ E ++ [d] := by
        intro r hr
        simp only [processDup] at hr
        obtain ⟨r0, hr0, rfl⟩ := List.mem_map.mp hr
        by_cases h : r0.email_id = d
        · simp only [h, beq_self_eq_true, if_true]
          simp [hcE, hcd]
        · simp only [beq_iff_eq, h, if_false]
          simp only [List.mem_append, List.mem_singleton, not_or]
          exact ⟨haccF r0 hr0, h⟩
      have key := ih (processDup c acc d) (E ++ [d])
        (by simp [hcE, hcd]) (fun hcontra => hcds (List.mem_cons_of_mem _ hcontra))
        hS' hF'
      constructor
      · intro r hr
        obtain ⟨h1, h2⟩ := key.1 r hr
        refine ⟨fun hE => h1 (List.mem_append_left _ hE), ?_⟩
        intro hmem
        rcases List.mem_cons.mp hmem with heq | hmem2
        · exact h1 (List.mem_append_right _ (by simp [heq]))
        · exact h2 hmem2
      · intro r hr
        obtain ⟨h1, h2⟩ := key.2 r hr
        refine ⟨fun hE => h1 (List.mem_append_left _ hE), ?_⟩
        intro hmem
        rcases List.mem_cons.mp hmem with heq | hmem2
        · exact h1 (List.mem_append_right _ (by simp [heq]))
        · exact h2 hmem2

theorem foldl_processGroup_excl (gs : List (List String))
    (acc : DBState × MigStats) (E : List String)
    (hheads : ∀ g ∈ gs, g.headI ∉ E ∧ ∀ g2 ∈ gs, g.headI ∉ g2.tail)
    (haccS : ∀ r ∈ acc.1.sent, r.email_id ∉ E)
    (haccF : ∀ r ∈ acc.1.failed, r.email_id ∉ E) :
    (∀ r ∈ (gs.foldl processGroup acc).1.sent,
      r.email_id ∉ E ∧ r.email_id ∉ allDups gs) ∧
    (∀ r ∈ (gs.foldl processGroup acc).1.failed,
      r.email_id ∉ E ∧ r.email_id ∉ allDups gs) := by
  induction gs generalizing acc E with
  | nil =>
      refine ⟨fun r hr => ⟨haccS r hr, ?_⟩, fun r hr => ⟨haccF r hr, ?_⟩⟩ <;>
        simp [allDups]
  | cons g gs ih =>
      have hg := hheads g (List.mem_cons_self g gs)
      have hinner := foldl_processDup_excl g.headI g.tail acc E hg.1
        (hg.2 g (List.mem_cons_self g gs)) haccS haccF
      have hS' : ∀ r ∈ (processGroup acc g).1.sent, r.email_id ∉ E ++ g.tail := by
        intro r hr
        have hx := hinner.1 r hr
        intro hmem
        rcases List.mem_append.mp hmem with hmem | hmem
        exacts [hx.1 hmem, hx.2 hmem]
      have hF' : ∀ r ∈ (processGroup acc g).1.failed, r.email_id ∉ E ++ g.tail := by
        intro r hr
        have hx := hinner.2 r hr
        intro hmem
        rcases List.mem_append.mp hmem with hmem | hmem
        exacts [hx.1 hmem, hx.2 hmem]
      have hheads' : ∀ g2 ∈ gs,
          g2.headI ∉ E ++ g.tail ∧ ∀ g3 ∈ gs, g2.headI ∉ g3.tail := by
        intro g2 hg2
        have h2 := hheads g2 (List.mem_cons_of_mem _ hg2)
        refine ⟨?_, fun g3 hg3 => h2.2 g3 (List.mem_cons_of_mem _ hg3)⟩
        intro hmem
        rcases List.mem_append.mp hmem with hmem | hmem
        exacts [h2.1 hmem, h2.2 g (List.mem_cons_self g gs) hmem]
      have key := ih (processGroup acc g) (E ++ g.tail) hheads' hS' hF'
      constructor
      · intro r hr
        obtain ⟨h1, h2⟩ := key.1 r hr
        refine ⟨fun hE => h1 (List.mem_append_left _ hE), ?_⟩
        intro hmem
        have hsplit : r.email_id ∈ g.tail ∨ r.email_id ∈ allDups gs := by
          simpa [allDups] using hmem
        rcases hsplit with hmem2 | hmem2
        exacts [h1 (List.mem_append_right _ hmem2), h2 hmem2]
      · intro r hr
        obtain ⟨h1, h2⟩ := key.2 r hr
        refine ⟨fun hE => h1 (List.mem_append_left _ hE), ?_⟩
        intro hmem
        have hsplit : r.email_id ∈ g.tail ∨ r.email_id ∈ allDups gs := by
          simpa [allDups] using hmem
        rcases hsplit with hmem2 | hmem2
        exacts [h1 (List.mem_append_right _ hmem2), h2 hmem2]

/-! ### Structure of the duplicate groups -/

theorem mem_dupGroups (st : DBState) (g : List String) (hg : g ∈ dupGroups st) :
    ∃ k, g = groupIds st.emails k ∧ 1 < g.length := by
  simp only [dupGroups, List.mem_filterMap] at hg
  obtain ⟨k, _hk, hif⟩ := hg
  by_cases h : 1 < (groupIds st.emails k).length
  · rw [if_pos h] at hif
    obtain rfl := Option.some.inj hif
    exact ⟨k, rfl, h⟩
  · rw [if_neg h] at hif
    exact absurd hif (by simp)

theorem mem_groupIds (emails : List EmailRow) (k : String × String × String)
    (x : String) :
    x ∈ groupIds emails k ↔ ∃ e, e ∈ emails ∧ groupKey e = k ∧ e.id = x := by
  simp [groupIds, List.mem_filter, beq_iff_eq, and_assoc]

theorem groupIds_nodup (st : DBState)
    (h : (st.emails.map (fun e => e.id)).Nodup) (k : String × String × String) :
    (groupIds st.emails k).Nodup := by
  have hsub : List.Sublist
      ((st.emails.filter (fun e => groupKey e == k)).map (fun e => e.id))
      (st.emails.map (fun e => e.id)) := (List.filter_sublist _).map _
  exact h.sublist hsub

theorem email_id_inj (st : DBState)
    (h : (st.emails.map (fun e => e.id)).Nodup)
    {e1 e2 : EmailRow} (h1 : e1 ∈ st.emails) (h2 : e2 ∈ st.emails)
    (heq : e1.id = e2.id) : e1 = e2 :=
  List.inj_on_of_nodup_map h h1 h2 heq

theorem headI_mem_of_ne_nil {l : List String} (h : l ≠ []) : l.headI ∈ l := by
  cases l with
  | nil => exact absurd rfl h
  | cons a t => simp

theorem dupGroups_heads_not_in_tails (st : DBState)
    (h : (st.emails.map (fun e => e.id)).Nodup) :
    ∀ g ∈ dupGroups st, ∀ g2 ∈ dupGroups st, g.headI ∉ g2.tail := by
  intro g hg g2 hg2
  obtain ⟨k, rfl, hlen⟩ := mem_dupGroups st g hg
  obtain ⟨k2, rfl, hlen2⟩ := mem_dupGroups st g2 hg2
  intro hmem
  have hne : groupIds st.emails k ≠ [] := by
    intro hnil
    rw [hnil] at hlen
    simp at hlen
  have hhead : (groupIds st.emails k).headI ∈ groupIds st.emails k :=
    headI_mem_of_ne_nil hne
  by_cases hkk : k = k2
  · subst hkk
    have hnd := groupIds_nodup st h k
    obtain ⟨a, t, hat⟩ := List.exists_cons_of_ne_nil hne
    rw [hat] at hmem hnd
    simp only [List.headI_cons, List.tail_cons] at hmem
    exact (List.nodup_cons.mp hnd).1 hmem
  · have hmem2 : (groupIds st.emails k).headI ∈ groupIds st.emails k2 :=
      List.mem_of_mem_tail hmem
    obtain ⟨e1, he1, hk1, hid1⟩ := (mem_groupIds _ _ _).mp hhead
    obtain ⟨e2, he2, hk2, hid2⟩ := (mem_groupIds _ _ _).mp hmem2
    have heq : e1 = e2 := email_id_inj st h he1 he2 (by rw [hid1, hid2])
    exact hkk (by rw [← hk1, heq, hk2])

theorem head?_filter_eq_find? (p : α → Bool) (l : List α) :
    (l.filter p).head? = l.find? p := by
  induction l with
  | nil => rfl
  | cons a t ih =>
      by_cases h : p a
      · rw [List.filter_cons_of_pos h, List.find?_cons_of_pos _ h]
        rfl
      · rw [List.filter_cons_of_neg (by simpa using h),
          List.find?_cons_of_neg _ (by simpa using h)]
        exact ih

theorem not_mem_allDups_of_head (st : DBState)
    (h : (st.emails.map (fun e => e.id)).Nodup) (g : List String)
    (hg : g ∈ dupGroups st) : g.headI ∉ allDups (dupGroups st) := by
  intro hmem
  simp only [allDups, List.mem_flatten, List.mem_map] at hmem
  obtain ⟨t, ⟨g2, hg2, rfl⟩, hx⟩ := hmem
  exact dupGroups_heads_not_in_tails st h g hg g2 hg2 hx

theorem length_le_one_of_nodup_map_const {S : List EmailRow} {v : String}
    (hnd : (S.map (fun e => e.id)).Nodup) (hconst : ∀ e ∈ S, e.id = v) :
    S.length ≤ 1 := by
  match S with
  | [] => simp
  | [a] => simp
  | a :: b :: t =>
      exfalso
      simp only [List.map_cons, List.nodup_cons, List.mem_cons, List.mem_map] at hnd
      have ha := hconst a (by simp)
      have hb := hconst b (by simp)
      exact hnd.1 (Or.inl (by rw [ha, hb]))

theorem groupIds_migrate_le_one (st : DBState)
    (h : (st.emails.map (fun e => e.id)).Nodup) (k : String × String × String) :
    (groupIds (migrate_consolidate_duplicate_emails st).1.emails k).length ≤ 1 := by
  rw [groupIds, migrate_emails]
  have hcomm : (st.emails.filter
        (fun e => decide (e.id ∉ allDups (dupGroups st)))).filter
          (fun e => groupKey e == k) =
      (st.emails.filter (fun e => groupKey e == k)).filter
        (fun e => decide (e.id ∉ allDups (dupGroups st))) := by
    rw [List.filter_filter, List.filter_filter]
    exact List.filter_congr (fun a _ => Bool.and_comm _ _)
  rw [hcomm, List.length_map]
  rcases le_or_lt (st.emails.filter (fun e => groupKey e == k)).length 1 with
    hF | hF
  · exact Nat.le_trans (List.length_filter_le _ _) hF
  · have hlenG : 1 < (groupIds st.emails k).length := by
      rw [groupIds, List.length_map]
      exact hF
    have hGne : st.emails.filter (fun e => groupKey e == k) ≠ [] := by
      intro hnil
      rw [hnil] at hF
      simp at hF
    obtain ⟨e0, he0⟩ := List.exists_mem_of_ne_nil _ hGne
    have he0' := List.mem_filter.mp he0
    have hkmem : k ∈ (st.emails.map groupKey).dedup := by
      rw [List.mem_dedup]
      exact List.mem_map.mpr ⟨e0, he0'.1, by simpa [beq_iff_eq] using he0'.2⟩
    have hGmem : groupIds st.emails k ∈ dupGroups st := by
      simp only [dupGroups, List.mem_filterMap]
      exact ⟨k, hkmem, by rw [if_pos hlenG]⟩
    have htail : ∀ x ∈ (groupIds st.emails k).tail, x ∈ allDups (dupGroups st) := by
      intro x hx
      simp only [allDups, List.mem_flatten, List.mem_map]
      exact ⟨(groupIds st.emails k).tail,
        ⟨groupIds st.emails k, hGmem, rfl⟩, hx⟩
    have hGnd := groupIds_nodup st h k
    have hGne2 : groupIds st.emails k ≠ [] := by
      intro hnil
      rw [hnil] at hlenG
      simp at hlenG
    obtain ⟨a, t, hat⟩ := List.exists_cons_of_ne_nil hGne2
    apply length_le_one_of_nodup_map_const (v := a)
    · have hsub : List.Sublist
          (((st.emails.filter (fun e => groupKey e == k)).filter
            (fun e => decide (e.id ∉ allDups (dupGroups st)))).map (fun e => e.id))
          (st.emails.map (fun e => e.id)) :=
        ((List.filter_sublist _).trans (List.filter_sublist _)).map _
      exact h.sublist hsub
    · intro e he
      have he' := List.mem_filter.mp he
      have hid_in : e.id ∈ groupIds st.emails k := by
        rw [groupIds]
        exact List.mem_map.mpr ⟨e, he'.1, rfl⟩
      have hid_not : e.id ∉ allDups (dupGroups st) := by
        simpa using he'.2
      rw [hat] at hid_in
      rcases List.mem_cons.mp hid_in with heq | hmem
      · exact heq
      · exfalso
        apply hid_not
        apply htail
        rw [hat]
        simpa using hmem

theorem dupGroups_migrate_nil (st : DBState)
    (h : (st.emails.map (fun e => e.id)).Nodup) :
    dupGroups (migrate_consolidate_duplicate_emails st).1 = [] := by
  simp only [dupGroups, List.filterMap_eq_nil_iff]
  intro k _hk
  rw [if_neg]
  have := groupIds_migrate_le_one st h k
  omega

theorem migrate_of_dupGroups_nil (st : DBState) (h : dupGroups st = []) :
    migrate_consolidate_duplicate_emails st = (st, ⟨0, 0, 0, 0⟩) := by
  simp only [migrate_consolidate_duplicate_emails, h, List.foldl_nil,
    List.length_nil]

/-- C2: consolidation rewrites only `email_id` values of sent/failed rows —
no row is inserted or deleted and every other field and the row order are
untouched — it only deletes `emails` rows, and every deleted row is a
duplicate (a row with the same content key and a different id survives)
with zero remaining references in the final state. -/
theorem claim_consolidation_preserves (st : DBState)
    (h : (st.emails.map (fun e => e.id)).Nodup) :
    ((migrate_consolidate_duplicate_emails st).1.sent.map sentProj =
      st.sent.map sentProj) ∧
    ((migrate_consolidate_duplicate_emails st).1.failed.map failedProj =
      st.failed.map failedProj) ∧
    ((migrate_consolidate_duplicate_emails st).1.sent.length = st.sent.length) ∧
    ((migrate_consolidate_duplicate_emails st).1.failed.length =
      st.failed.length) ∧
    List.Sublist (migrate_consolidate_duplicate_emails st).1.emails st.emails ∧
    (∀ e ∈ st.emails, e ∉ (migrate_consolidate_duplicate_emails st).1.emails →
      (∃ e2, e2 ∈ (migrate_consolidate_duplicate_emails st).1.emails ∧
        groupKey e2 = groupKey e ∧ e2.id ≠ e.id) ∧
      (∀ r ∈ (migrate_consolidate_duplicate_emails st).1.sent,
        r.email_id ≠ e.id) ∧
      (∀ r ∈ (migrate_consolidate_duplicate_emails st).1.failed,
        r.email_id ≠ e.id)) := by
  have hS := migrate_sent_proj st
  have hF := migrate_failed_proj st
  have hE := migrate_emails st
  have hlenS : (migrate_consolidate_duplicate_emails st).1.sent.length =
      st.sent.length := by
    have hc := congrArg List.length hS
    simpa using hc
  have hlenF : (migrate_consolidate_duplicate_emails st).1.failed.length =
      st.failed.length := by
    have hc := congrArg List.length hF
    simpa using hc
  have hsub : List.Sublist (migrate_consolidate_duplicate_emails st).1.emails
      st.emails := by
    rw [hE]
    exact List.filter_sublist _
  refine ⟨hS, hF, hlenS, hlenF, hsub, ?_⟩
  intro e he hnot
  have hin : e.id ∈ allDups (dupGroups st) := by
    by_contra hnin
    exact hnot (by
      rw [hE]
      exact List.mem_filter.mpr ⟨he, by simpa using hnin⟩)
  obtain ⟨g, hg, hgt⟩ : ∃ g ∈ dupGroups st, e.id ∈ g.tail := by
    simp only [allDups, List.mem_flatten, List.mem_map] at hin
    obtain ⟨t, ⟨g, hg, rfl⟩, hx⟩ := hin
    exact ⟨g, hg, hx⟩
  obtain ⟨k, hgk, hlen⟩ := mem_dupGroups st g hg
  have hgne : g ≠ [] := by
    intro hnil
    rw [hnil] at hlen
    simp at hlen
  have hheadg : g.headI ∈ g := headI_mem_of_ne_nil hgne
  have hhead_in : g.headI ∈ groupIds st.emails k := hgk ▸ hheadg
  obtain ⟨e2, he2, hk2, hid2⟩ := (mem_groupIds _ _ _).mp hhead_in
  have hcnot : g.headI ∉ allDups (dupGroups st) := not_mem_allDups_of_head st h g hg
  have he2final : e2 ∈ (migrate_consolidate_duplicate_emails st).1.emails := by
    rw [hE]
    refine List.mem_filter.mpr ⟨he2, ?_⟩
    simp only [decide_eq_true_eq]
    rw [hid2]
    exact hcnot
  have hkey_e : groupKey e = k := by
    have he_in : e.id ∈ groupIds st.emails k := hgk ▸ List.mem_of_mem_tail hgt
    obtain ⟨e3, he3, hk3, hid3⟩ := (mem_groupIds _ _ _).mp he_in
    have : e3 = e := email_id_inj st h he3 he hid3
    rw [← this]
    exact hk3
  have hid_ne : e2.id ≠ e.id := by
    rw [hid2]
    intro heq
    exact dupGroups_heads_not_in_tails st h g hg g hg (heq ▸ hgt)
  have hexcl := foldl_processGroup_excl (dupGroups st)
    (st, ⟨(dupGroups st).length, 0, 0, 0⟩) []
    (fun g2 hg2 => ⟨List.not_mem_nil _,
      fun g3 hg3 => dupGroups_heads_not_in_tails st h g2 hg2 g3 hg3⟩)
    (fun r _ => List.not_mem_nil _) (fun r _ => List.not_mem_nil _)
  refine ⟨⟨e2, he2final, by rw [hk2, hkey_e], hid_ne⟩, ?_, ?_⟩
  · intro r hr heq
    exact (hexcl.1 r hr).2 (heq ▸ hin)
  · intro r hr heq
    exact (hexcl.2 r hr).2 (heq ▸ hin)

theorem claim_consolidation_preserves_witness :
    (dbDupTemplates.emails.map (fun e => e.id)).Nodup ∧
    (migrate_consolidate_duplicate_emails dbDupTemplates).1.sent.map sentProj =
      dbDupTemplates.sent.map sentProj :=
  ⟨by decide, (claim_consolidation_preserves dbDupTemplates (by decide)).1⟩

/-- C3: consolidation is idempotent — a second immediate run finds zero
duplicate groups, removes zero templates, rewrites zero records (all four
returned stats are zero) and leaves the store unchanged. -/
theorem claim_consolidation_idempotent (st : DBState)
    (h : (st.emails.map (fun e => e.id)).Nodup) :
    (migrate_consolidate_duplicate_emails
        (migrate_consolidate_duplicate_emails st).1).2 = ⟨0, 0, 0, 0⟩ ∧
    (migrate_consolidate_duplicate_emails
        (migrate_consolidate_duplicate_emails st).1).1 =
      (migrate_consolidate_duplicate_emails st).1 := by
  have hnil := dupGroups_migrate_nil st h
  have hid := migrate_of_dupGroups_nil _ hnil
  rw [hid]
  exact ⟨rfl, rfl⟩

theorem claim_consolidation_idempotent_witness :
    (dbDupTemplates.emails.map (fun e => e.id)).Nodup ∧
    (migrate_consolidate_duplicate_emails
        (migrate_consolidate_duplicate_emails dbDupTemplates).1).2 =
      ⟨0, 0, 0, 0⟩ :=
  ⟨by decide, (claim_consolidation_idempotent dbDupTemplates (by decide)).1⟩

/-! ### Stability of the summary ordering -/

theorem bySubjectSender_trans (a b c : EmailRow)
    (hab : bySubjectSender a b = true) (hbc : bySubjectSender b c = true) :
    bySubjectSender a c = true := by
  simp only [bySubjectSender, decide_eq_true_eq] at hab hbc ⊢
  rcases hab with h1 | ⟨h1, h1'⟩ <;> rcases hbc with h2 | ⟨h2, h2'⟩
  · exact Or.inl (lt_trans h1 h2)
  · exact Or.inl (by rw [← h2]; exact h1)
  · exact Or.inl (by rw [h1]; exact h2)
  · exact Or.inr ⟨h1.trans h2, le_trans h1' h2'⟩

theorem bySubjectSender_total (a b : EmailRow) :
    (bySubjectSender a b || bySubjectSender b a) = true := by
  simp only [Bool.or_eq_true, bySubjectSender, decide_eq_true_eq]
  rcases lt_trichotomy a.subject b.subject with h | h | h
  · exact Or.inl (Or.inl h)
  · rcases le_total a.sender b.sender with hs | hs
    · exact Or.inl (Or.inr ⟨h, hs⟩)
    · exact Or.inr (Or.inr ⟨h.symm, hs⟩)
  · exact Or.inr (Or.inl h)

theorem mergeSort_filter_tied (l : List EmailRow) (p : EmailRow → Bool)
    (htied : ∀ a b, p a = true → p b = true → bySubjectSender a b = true) :
    (l.mergeSort bySubjectSender).filter p = l.filter p := by
  have h1 : List.Sublist (l.filter p) l := List.filter_sublist l
  have hpw : (l.filter p).Pairwise (fun a b => bySubjectSender a b = true) :=
    List.pairwise_of_forall_mem_list (fun a ha b hb =>
      htied a b (List.mem_filter.mp ha).2 (List.mem_filter.mp hb).2)
  have h2 : List.Sublist (l.filter p) (l.mergeSort bySubjectSender) :=
    List.sublist_mergeSort bySubjectSender_trans bySubjectSender_total hpw h1
  have h3 : List.Sublist ((l.filter p).filter p)
      ((l.mergeSort bySubjectSender).filter p) := h2.filter p
  rw [List.filter_filter] at h3
  have hpp : (fun a => p a && p a) = p := by
    funext a
    exact Bool.and_self _
  rw [hpp] at h3
  have hlen : ((l.mergeSort bySubjectSender).filter p).length =
      (l.filter p).length :=
    ((List.mergeSort_perm l bySubjectSender).filter p).length_eq
  exact (h3.eq_of_length hlen.symm).symm

/-! ### The grouping fold of `get_grouped_emails_summary` -/

theorem foldl_insertEmail_ids (l : List EmailRow) (gs : List GroupAcc)
    (processed : List EmailRow)
    (h1 : ∀ g ∈ gs, g.email_ids =
      (processed.filter (fun e => groupKey e == g.key)).map (fun e => e.id) ∧
      g.email_ids ≠ [])
    (h2 : ∀ k, (gs.any (fun g => g.key == k)) = true ↔
      ∃ e ∈ processed, groupKey e = k) :
    ∀ g ∈ l.foldl insertEmail gs,
      g.email_ids =
        ((processed ++ l).filter (fun e => groupKey e == g.key)).map
          (fun e => e.id) ∧
      g.email_ids ≠ [] := by
  induction l generalizing gs processed with
  | nil =>
      intro g hg
      rw [List.append_nil]
      exact h1 g hg
  | cons e l ih =>
      have step : ∀ g' ∈ insertEmail gs e,
          g'.email_ids =
            ((processed ++ [e]).filter (fun x => groupKey x == g'.key)).map
              (fun x => x.id) ∧ g'.email_ids ≠ [] := by
        intro g' hg'
        by_cases hany : (gs.any (fun g0 => g0.key == groupKey e)) = true
        · rw [insertEmail, if_pos hany] at hg'
          obtain ⟨g0, hg0, rfl⟩ := List.mem_map.mp hg'
          obtain ⟨hg0ids, hg0ne⟩ := h1 g0 hg0
          by_cases hkey : g0.key = groupKey e
          · rw [if_pos (by simp [hkey])]
            refine ⟨?_, by simp⟩
            show g0.email_ids ++ [e.id] =
              ((processed ++ [e]).filter (fun x => groupKey x == g0.key)).map
                (fun x => x.id)
            rw [List.filter_append, List.map_append]
            have hfe : ([e].filter (fun x => groupKey x == g0.key)) = [e] := by
              simp [List.filter_cons, hkey]
            rw [hfe, ← hg0ids]
            rfl
          · rw [if_neg (by simpa using hkey)]
            refine ⟨?_, hg0ne⟩
            rw [List.filter_append, List.map_append]
            have hfe : ([e].filter (fun x => groupKey x == g0.key)) = [] := by
              simp only [List.filter_cons, List.filter_nil]
              rw [if_neg]
              simp only [beq_iff_eq]
              intro hcontra
              exact hkey (by rw [hcontra])
            rw [hfe, ← hg0ids]
            simp
        · rw [insertEmail, if_neg hany] at hg'
          have hnone : ∀ g0 ∈ gs, g0.key ≠ groupKey e := by
            intro g0 hg0 hcontra
            exact hany (List.any_eq_true.mpr ⟨g0, hg0, by simp [hcontra]⟩)
          rcases List.mem_append.mp hg' with hmem | hmem
          · obtain ⟨hg0ids, hg0ne⟩ := h1 g' hmem
            refine ⟨?_, hg0ne⟩
            rw [List.filter_append, List.map_append]
            have hfe : ([e].filter (fun x => groupKey x == g'.key)) = [] := by
              simp only [List.filter_cons, List.filter_nil]
              rw [if_neg]
              simp only [beq_iff_eq]
              intro hcontra
              exact hnone g' hmem (by rw [hcontra])
            rw [hfe, ← hg0ids]
            simp
          · have hg'eq : g' = ⟨groupKey e, e.files, [e.id]⟩ := by
              simpa using hmem
            subst hg'eq
            refine ⟨?_, by simp⟩
            rw [List.filter_append, List.map_append]
            have hfp : (processed.filter (fun x => groupKey x == groupKey e)) = [] := by
              rw [List.filter_eq_nil_iff]
              intro x hx
              simp only [beq_iff_eq]
              intro hcontra
              have : ∃ x ∈ processed, groupKey x = groupKey e := ⟨x, hx, hcontra⟩
              exact hany ((h2 (groupKey e)).mpr this)
            have hfe : ([e].filter (fun x => groupKey x == groupKey e)) = [e] := by
              simp
            rw [hfp, hfe]
            rfl
      have step2 : ∀ k, ((insertEmail gs e).any (fun g0 => g0.key == k)) = true ↔
          ∃ x ∈ processed ++ [e], groupKey x = k := by
        intro k
        have hsplit : (∃ x ∈ processed ++ [e], groupKey x = k) ↔
            ((∃ x ∈ processed, groupKey x = k) ∨ groupKey e = k) := by
          simp only [List.mem_append, List.mem_singleton]
          constructor
          · rintro ⟨x, hx | rfl, hk⟩
            exacts [Or.inl ⟨x, hx, hk⟩, Or.inr hk]
          · rintro (⟨x, hx, hk⟩ | hk)
            exacts [⟨x, Or.inl hx, hk⟩, ⟨e, Or.inr rfl, hk⟩]
        rw [hsplit]
        by_cases hany : (gs.any (fun g0 => g0.key == groupKey e)) = true
        · rw [insertEmail, if_pos hany]
          have hkeys : ((gs.map (fun g0 => if g0.key == groupKey e then
                { g0 with email_ids := g0.email_ids ++ [e.id] } else g0)).any
                  (fun g0 => g0.key == k)) = true ↔
              (gs.any (fun g0 => g0.key == k)) = true := by
            simp only [List.any_eq_true, List.mem_map]
            constructor
            · rintro ⟨g1, ⟨g0, hg0, rfl⟩, hk⟩
              refine ⟨g0, hg0, ?_⟩
              by_cases hc : g0.key == groupKey e <;> simp [hc] at hk ⊢ <;>
                exact hk
            · rintro ⟨g0, hg0, hk⟩
              refine ⟨if g0.key == groupKey e then
                { g0 with email_ids := g0.email_ids ++ [e.id] } else g0,
                ⟨g0, hg0, rfl⟩, ?_⟩
              by_cases hc : g0.key == groupKey e <;> simp [hc] <;>
                simpa using hk
          rw [hkeys, h2]
          constructor
          · exact Or.inl
          · rintro (hx | hx)
            · exact hx
            · obtain ⟨g0, hg0, hg0k⟩ := List.any_eq_true.mp hany
              refine (h2 k).mp ?_
              refine List.any_eq_true.mpr ⟨g0, hg0, ?_⟩
              simp only [beq_iff_eq] at hg0k ⊢
              rw [hg0k, hx]
        · rw [insertEmail, if_neg hany]
          simp only [List.any_append, List.any_eq_true, Bool.or_eq_true]
          constructor
          · rintro (⟨g0, hg0, hk⟩ | ⟨g0, hg0, hk⟩)
            · exact Or.inl ((h2 k).mp (List.any_eq_true.mpr ⟨g0, hg0, hk⟩))
            · simp only [List.mem_singleton] at hg0
              subst hg0
              simp only [beq_iff_eq] at hk
              exact Or.inr hk
          · rintro (hx | hx)
            · obtain ⟨g0, hg0, hk⟩ := List.any_eq_true.mp ((h2 k).mpr hx)
              exact Or.inl ⟨g0, hg0, hk⟩
            · exact Or.inr ⟨⟨groupKey e, e.files, [e.id]⟩, by simp, by simp [hx]⟩
      intro g hg
      have := ih (insertEmail gs e) (processed ++ [e]) step step2 g hg
      rwa [List.append_assoc, List.singleton_append] at this

theorem buildGroups_ids (l : List EmailRow) :
    ∀ g ∈ l.foldl insertEmail [],
      g.email_ids = (l.filter (fun e => groupKey e == g.key)).map (fun e => e.id) ∧
      g.email_ids ≠ [] := by
  have h := foldl_insertEmail_ids l [] []
    (fun g hg => absurd hg (List.not_mem_nil g))
    (fun k => by simp)
  simpa using h

/-- C8: the canonical survivor of each duplicate group in the consolidation
is the group's first Template in rowid (creation) order — the head of the
GROUP_CONCAT id list — and the id a grouped-summary entry exposes is that
same first/oldest member's id. -/
theorem claim_canonical_oldest (st : DBState) :
    (∀ g ∈ dupGroups st, ∃ k, g = groupIds st.emails k ∧
        some g.headI = firstTemplateId st.emails k) ∧
    (∀ entry ∈ get_grouped_emails_summary st,
        some entry.id = firstTemplateId st.emails
          (entry.subject, entry.sender, entry.body)) := by
  constructor
  · intro g hg
    obtain ⟨k, rfl, hlen⟩ := mem_dupGroups st g hg
    refine ⟨k, rfl, ?_⟩
    have hne : groupIds st.emails k ≠ [] := by
      intro hnil
      rw [hnil] at hlen
      simp at hlen
    have hh : some (groupIds st.emails k).headI = (groupIds st.emails k).head? := by
      obtain ⟨a, t, hat⟩ := List.exists_cons_of_ne_nil hne
      rw [hat]
      rfl
    rw [hh, groupIds, List.head?_map, head?_filter_eq_find?, firstTemplateId]
  · intro entry hentry
    simp only [get_grouped_emails_summary, List.mem_mergeSort,
      List.mem_map] at hentry
    obtain ⟨g, hg, rfl⟩ := hentry
    obtain ⟨hids, hne⟩ := buildGroups_ids (st.emails.mergeSort bySubjectSender) g hg
    have hkey : ((summaryOfGroup st g).subject, (summaryOfGroup st g).sender,
        (summaryOfGroup st g).body) = g.key := by
      simp [summaryOfGroup]
    rw [hkey]
    have hstab : (st.emails.mergeSort bySubjectSender).filter
        (fun e => groupKey e == g.key) =
        st.emails.filter (fun e => groupKey e == g.key) := by
      apply mergeSort_filter_tied
      intro a b ha hb
      have ha' : groupKey a = g.key := by simpa [beq_iff_eq] using ha
      have hb' : groupKey b = g.key := by simpa [beq_iff_eq] using hb
      simp only [bySubjectSender, decide_eq_true_eq]
      right
      constructor
      · have hx : (groupKey a).1 = (groupKey b).1 := by rw [ha', hb']
        simpa [groupKey] using hx
      · have hx : (groupKey a).2.1 = (groupKey b).2.1 := by rw [ha', hb']
        have hs : a.sender = b.sender := by simpa [groupKey] using hx
        rw [hs]
    have hid : (summaryOfGroup st g).id = g.email_ids.headI := rfl
    rw [hid, hids, hstab]
    have hne2 : (st.emails.filter (fun e => groupKey e == g.key)) ≠ [] := by
      intro hnil
      apply hne
      rw [hids, hstab, hnil]
      rfl
    obtain ⟨a, t, hat⟩ := List.exists_cons_of_ne_nil hne2
    have hfirst : firstTemplateId st.emails g.key = some a.id := by
      rw [firstTemplateId, ← head?_filter_eq_find?, hat]
      rfl
    rw [hat, hfirst]
    rfl

end SesEmailer
